import Mathlib

/-!
Verification development for `vbrtool.py`, a batch tool over Mikado VBar
register-bank files.  The Python source is shallowly embedded: register
banks become association lists from integer register ids to values, the
per-register decoders become pure functions on `Int`, the file format is
modelled at the level of lines (lists of characters), and Python's
arbitrary-precision integer operations (`//`, `>>`, `&`) are modelled by
`Int.fdiv` (floor division) and `Int.land`.
-/

/-- A value stored in a bank map.  Raw registers parsed from a file hold
integers (`Value.int`).  The derived register 1091 holds the version string
(`Value.str`), and the derived register 2331 holds the Python float
`0.1 * t + 0.001 * f`; since that float is a deterministic function of the
two integer inputs, it is modelled by the constructor `Value.gearing t f`
carrying those inputs. -/
inductive Value where
  | int (n : Int)
  | str (s : String)
  | gearing (t f : Int)
  deriving DecidableEq, Repr, Inhabited

/-- True when the value is an integer (the only case for raw registers). -/
def Value.isInt : Value → Bool
  | .int _ => true
  | _ => false

/-- A register bank: Python's `dict` of register id to value, modelled as an
association list in insertion order (Python dicts preserve insertion order;
new keys are appended at the end). -/
abbrev RegMap := List (Int × Value)

/-- Dictionary lookup, `regs[k]` / `k in regs`. -/
def find? (m : RegMap) (k : Int) : Option Value :=
  match m with
  | [] => none
  | (a, v) :: rest => if k = a then some v else find? rest k

/-- Dictionary assignment `regs[k] = v`: overwrite in place if the key
exists, otherwise append the new entry at the end. -/
def insertV (m : RegMap) (k : Int) (v : Value) : RegMap :=
  match m with
  | [] => [(k, v)]
  | (a, w) :: rest => if a = k then (a, v) :: rest else (a, w) :: insertV rest k v

/-- The keys of a bank map, in insertion order. -/
def keys (m : RegMap) : List Int := m.map Prod.fst

/-- Lookup that also requires the stored value to be an integer; Python
raises (`KeyError` / `TypeError`) in the other cases. -/
def intFind? (m : RegMap) (k : Int) : Option Int :=
  match find? m k with
  | some (.int n) => some n
  | _ => none

/-- Python `a & b` on arbitrary-precision signed integers. -/
def pyAnd (a b : Int) : Int := Int.land a b

/-- Python `a >> k`: an arithmetic shift, i.e. floor division by `2 ^ k`. -/
def pyShr (a : Int) (k : Nat) : Int := Int.fdiv a (2 ^ k)

/-- Python `a // b`: floor division. -/
def pyDiv (a b : Int) : Int := Int.fdiv a b

/-- The decimal digit character for `d < 10` (`'9'` as a harmless default
above). -/
def digitChar (d : Nat) : Char :=
  match d with
  | 0 => '0' | 1 => '1' | 2 => '2' | 3 => '3' | 4 => '4'
  | 5 => '5' | 6 => '6' | 7 => '7' | 8 => '8' | _ => '9'

/-- Numeric value of a decimal digit character. -/
def digitVal (c : Char) : Nat := c.toNat - 48

/-- Decimal digits of a natural number, most significant first, with
explicit fuel so that the definition is structural (hence kernel
reducible).  `natChars` instantiates the fuel sufficiently. -/
def natCharsAux : Nat → Nat → List Char
  | 0, _ => []
  | fuel + 1, n =>
    if n < 10 then [digitChar n]
    else natCharsAux fuel (n / 10) ++ [digitChar (n % 10)]

/-- Decimal digits of a natural number, most significant first. -/
def natChars (n : Nat) : List Char := natCharsAux (n + 1) n

/-- Python `str(i)` for an integer, as a character list: an optional minus
sign followed by the decimal digits without leading zeros. -/
def intChars (i : Int) : List Char :=
  if i < 0 then '-' :: natChars i.natAbs else natChars i.natAbs

/-- Python `str(i)` for an integer, as a `String`. -/
def intRepr (i : Int) : String := String.mk (intChars i)

/-! ### Value decoders (`format_*` functions of the source)

Each Python decoder receives `(file, reg, val)` but none of them reads
`file` or `reg`; they are modelled as functions of the raw value alone. -/

/-- `format_gov_type` (register 80). -/
def format_gov_type (val : Int) : String :=
  if val = -1 then "disabled"
  else if val = 2 then "expert/fixed/off"
  else if val = 4 then "expert/collective-output"
  else if val = 5 then "expert/throttle curve only"
  else if val = 7 then "nitro"
  else if val = 8 then "elec"
  else if val = 10 then "expert/fixed/on"
  else "<undef>"

/-- `format_gov_output` (register 2343).  The Python if/elif chain has no
final else, so for values outside {0,1,2,3} the function falls through and
returns Python's `None`, modelled here as `Option.none`. -/
def format_gov_output (val : Int) : Option String :=
  if val = 0 then some "servo"
  else if val = 1 then some "ch4"
  else if val = 2 then some "esc"
  else if val = 3 then some "none"
  else none

/-- `format_gov_speed` (register 70). -/
def format_gov_speed (val : Int) : String := intRepr (val * 50) ++ "rpm"

/-- `format_gov_channel` (registers 236, 239). -/
def format_gov_channel (val : Int) : String :=
  if val = -1 then "internal"
  else if val > -1 ∧ val < 12 then "ch" ++ intRepr (val + 1)
  else "<unknown>"

/-- `format_receiver_type` (register 219). -/
def format_receiver_type (val : Int) : String :=
  if val = 0 then "Separate PPM"
  else if val = 1 then "Spektrum SAT"
  else if val = 2 then "CPPM"
  else if val = 6 then "SBUS"
  else if val = 7 then "Spektrum HiRes"
  else if val = 8 then "UDI"
  else if val = 9 then "Spektrum Digital"
  else if val = 10 then "Spektrum DSM-X 11ms"
  else if val = 11 then "Spektrum DSM-X 22ms"
  else "<invalid>"

/-- `format_servo_rate` (registers 221, 222): `1000 // val` with an `Hz`
suffix for positive values, the invalid marker otherwise. -/
def format_servo_rate (val : Int) : String :=
  if val > 0 then intRepr (pyDiv 1000 val) ++ "Hz" else "<invalid>"

/-- `format_servo_type` (register 223). -/
def format_servo_type (val : Int) : String :=
  if val = 0 then "1520us"
  else if val = 1 then "760us"
  else if val = 2 then "960us"
  else "<invalid>"

/-- `format_main_style` (register 72). -/
def format_main_style (val : Int) : String :=
  if val = 2 then "Vivid"
  else if val = 3 then "Medium"
  else if val = 4 then "Precise"
  else if val = 5 then "Mechanical"
  else "<invalid>"

/-- `format_cyclic_throw` (register 52): `str(59+(val-38)*61//39)`. -/
def format_cyclic_throw (val : Int) : String :=
  intRepr (59 + pyDiv ((val - 38) * 61) 39)

/-- `format_yaw_rate` (register 79): `str(40+(val-19)*81//39)`. -/
def format_yaw_rate (val : Int) : String :=
  intRepr (40 + pyDiv ((val - 19) * 81) 39)

/-- `format_main_adj` (register 41): `str(120-((val+30)*80//70))`. -/
def format_main_adj (val : Int) : String :=
  intRepr (120 - pyDiv ((val + 30) * 80) 70)

/-- `format_double`. -/
def format_double (val : Int) : String := intRepr (2 * val)

/-- `format_double_neg`. -/
def format_double_neg (val : Int) : String := intRepr (-2 * val)

/-- `format_ch` (registers 210-216). -/
def format_ch (val : Int) : String := "ch" ++ intRepr (val + 1)

/-! ### Derived registers (`convert_regs`) -/

/-- The string `'%d.%d.%d' % ((v109 >> 4) & 0x0F, (v109 >> 0) & 0x0F, v499)`
assembled by `convert_regs` for the derived register 1091. -/
def verString (v109 v499 : Int) : String :=
  intRepr (pyAnd (pyShr v109 4) 15) ++ "." ++
  intRepr (pyAnd (pyShr v109 0) 15) ++ "." ++ intRepr v499

/-- `convert_regs`: computes the derived registers 1091, 2331, 2341, 2342
and 2343 from the raw registers 109, 499, 233, 235 and 234, mutating the
dict statement by statement.  The returned flag is `true` when Python
raises (`KeyError` for a missing register, `TypeError` for a non-integer
value); the returned map is the dict's state at that point, since each
Python assignment completes before the next line runs.  Line 581 reads
`regs[109]` twice within one expression with no intervening assignment, so
a single lookup is used for both occurrences; lines 583-585 each perform
their own lookup of `regs[234]`. -/
def convert_regs (m : RegMap) : RegMap × Bool :=
  match intFind? m 109 with
  | none => (m, true)
  | some a =>
    match intFind? m 499 with
    | none => (m, true)
    | some c =>
      let m1 := insertV m 1091 (.str (verString a c))
      match intFind? m1 233 with
      | none => (m1, true)
      | some t =>
        match intFind? m1 235 with
        | none => (m1, true)
        | some f =>
          let m2 := insertV m1 2331 (.gearing t f)
          match intFind? m2 234 with
          | none => (m2, true)
          | some g =>
            let m3 := insertV m2 2341 (.int (pyShr (pyAnd g 8) 3))
            match intFind? m3 234 with
            | none => (m3, true)
            | some g4 =>
              let m4 := insertV m3 2342 (.int (pyShr (pyAnd g4 32) 5))
              match intFind? m4 234 with
              | none => (m4, true)
              | some g5 =>
                (insertV m4 2343 (.int (pyShr (pyAnd g5 6) 1)), false)

/-! ### File format (`read_vbr` / `write_vbr`)

Files are modelled as lists of lines, each line a list of characters.
`read_vbr` scans each line with the regular expression
`<VALUE Register="([-]?[0-9]+)" Value="([-]?[0-9]+)"/>` (via `re.search`,
i.e. a match may start at any position in the line); `write_vbr` emits the
two-line envelope around one value line per raw entry, ascending by id. -/

/-- Consume an exact literal at the head of the input, returning the rest,
or fail. -/
def dropLit : List Char → List Char → Option (List Char)
  | [], l => some l
  | _ :: _, [] => none
  | p :: ps, c :: cs => if p = c then dropLit ps cs else none

/-- Value of a most-significant-digit-first decimal digit string. -/
def digitsToNat (ds : List Char) : Nat :=
  ds.foldl (fun a c => 10 * a + digitVal c) 0

/-- Match `[0-9]+` greedily at the head of the input (the regex never needs
to backtrack here because the character following the digit group in the
pattern is never a digit). -/
def matchNat (l : List Char) : Option (Nat × List Char) :=
  let ds := l.takeWhile Char.isDigit
  if ds = [] then none
  else some (digitsToNat ds, l.dropWhile Char.isDigit)

/-- Match `[-]?[0-9]+` at the head of the input. -/
def matchInt (l : List Char) : Option (Int × List Char) :=
  match l with
  | [] => none
  | c :: rest =>
    if c = '-' then
      match matchNat rest with
      | some (n, r2) => some (-(n : Int), r2)
      | none => none
    else
      match matchNat (c :: rest) with
      | some (n, r2) => some ((n : Int), r2)
      | none => none

/-- Match the whole tag pattern at the head of the input: the literal
`<VALUE Register="`, a signed integer, the literal `" Value="`, a signed
integer, then the literal `"/>`. -/
def matchVal (l : List Char) : Option (Int × Int) :=
  (dropLit "<VALUE Register=\"".data l).bind fun r1 =>
    (matchInt r1).bind fun p =>
      (dropLit "\" Value=\"".data p.2).bind fun q =>
        (matchInt q).bind fun w =>
          (dropLit "\"/>".data w.2).map fun _ => (p.1, w.1)

/-- `re.search`: try the pattern at every position, leftmost match wins. -/
def searchVal : List Char → Option (Int × Int)
  | [] => none
  | c :: cs =>
    match matchVal (c :: cs) with
    | some rv => some rv
    | none => searchVal cs

/-- Rendering of a value by `'%s' % v` on a serialized line.  Only integer
values ever reach serialization in the program (raw registers, the only
ids written, always hold integers); the `.gearing` case stands for
Python's float rendering, which is not modelled and which no theorem
relies on. -/
def valueChars : Value → List Char
  | .int n => intChars n
  | .str s => s.data
  | .gearing _ _ => "<float>".data

/-- One serialized line: `    <VALUE Register="R" Value="V"/>`. -/
def valueLineCh (r : Int) (v : Value) : List Char :=
  "    <VALUE Register=\"".data ++ intChars r ++ "\" Value=\"".data ++
    valueChars v ++ "\"/>".data

/-- The keys serialized by `write_vbr`: `sorted(regs)` filtered to ids
below 1000. -/
def insSorted (x : Int) : List Int → List Int
  | [] => [x]
  | y :: ys => if x ≤ y then x :: y :: ys else y :: insSorted x ys

/-- Ascending insertion sort, modelling Python's `sorted`. -/
def sortInts : List Int → List Int
  | [] => []
  | x :: xs => insSorted x (sortInts xs)

/-- The ids `write_vbr` serializes, in emission order. -/
def writeKeys (m : RegMap) : List Int :=
  (sortInts (keys m)).filter (fun k => k < 1000)

/-- The (id, value) pairs `write_vbr` serializes, in emission order. -/
def writeEntries (m : RegMap) : List (Int × Value) :=
  (writeKeys m).filterMap (fun k => (find? m k).map (fun v => (k, v)))

/-- `write_vbr`: the emitted lines. -/
def write_vbr (m : RegMap) : List (List Char) :=
  "<REGISTER>".data :: (writeEntries m).map (fun p => valueLineCh p.1 p.2)
    ++ ["</REGISTER>".data]

/-- One step of `read_vbr`'s line loop: a matching line assigns
`vbr_regs[reg] = val`, any other line is ignored. -/
def readLine (m : RegMap) (l : List Char) : RegMap :=
  match searchVal l with
  | some (r, v) => insertV m r (.int v)
  | none => m

/-- `read_vbr`: scan all lines, then run `convert_regs` on the result.
The flag is `true` when `convert_regs` raises. -/
def read_vbr (lines : List (List Char)) : RegMap × Bool :=
  convert_regs (lines.foldl readLine [])

/-! ### Diff and Copy -/

/-- The inner loop of `diff_regs` for one register, over the per-file
presence of that register (`none` = the file's bank lacks it).  `val`
starts as Python `None`; the first bank containing the register sets it;
a later bank is then compared via `val != values[file][reg]`, which raises
`KeyError` (modelled as `Except.error ()`) when that bank lacks the
register.  `Except.ok true` means the row is printed, `Except.ok false`
that it is suppressed. -/
def diffStep : Option Value → List (Option Value) → Except Unit Bool
  | _, [] => .ok false
  | none, b :: rest => diffStep b rest
  | some _, none :: _ => .error ()
  | some v, some w :: rest => if v = w then diffStep (some v) rest else .ok true

/-- `diff_regs` restricted to a single register: the banks are given in
input-file order as `none` (register absent) or `some v` (present with
stored value `v`). -/
def diffReg (banks : List (Option Value)) : Except Unit Bool :=
  diffStep none banks

/-- The in-memory phase of `copy_regs`: for each register of the group (in
group order), when the source bank contains it, assign the source value
into every target bank's map. -/
def copy_regs_mem (src : RegMap) (regs : List Int) (tgts : List RegMap) :
    List RegMap :=
  regs.foldl
    (fun ts r =>
      match find? src r with
      | some v => ts.map (fun t => insertV t r v)
      | none => ts)
    tgts

/-- Per-target form of the copy loop, used to reason about
`copy_regs_mem`. -/
def copyOne (src : RegMap) (regs : List Int) (t : RegMap) : RegMap :=
  regs.foldl
    (fun t r =>
      match find? src r with
      | some v => insertV t r v
      | none => t)
    t

/-- A concrete bank used by witnesses: the five raw registers needed by
derivation plus one unrelated raw register. -/
def bank0 : RegMap :=
  [(109, .int 18), (499, .int 3), (233, .int 18), (235, .int 500),
   (234, .int 10), (50, .int 77)]

/-! ### Helper lemmas -/

/-- Floor division by a nonnegative divisor agrees with Lean's `Int`
euclidean division. -/
theorem pyDiv_eq_ediv (a b : Int) (hb : 0 ≤ b) : pyDiv a b = a / b :=
  Int.fdiv_eq_ediv a hb

/-- Lookup after dictionary assignment. -/
theorem find?_insertV (m : RegMap) (k x : Int) (v : Value) :
    find? (insertV m k v) x = if x = k then some v else find? m x := by
  induction m with
  | nil =>
    by_cases hxk : x = k <;> simp [insertV, find?, hxk]
  | cons p rest ih =>
    obtain ⟨a, w⟩ := p
    by_cases hak : a = k
    · subst hak
      by_cases hxa : x = a <;> simp [insertV, find?, hxa]
    · by_cases hxa : x = a
      · have hxk : ¬ x = k := by rw [hxa]; exact hak
        simp [insertV, find?, hak, hxa, hxk]
      · simp [insertV, find?, hak, hxa, ih]

/-- Integer lookup after assignment at a different key. -/
theorem intFind?_insertV_ne (m : RegMap) (k x : Int) (v : Value) (h : x ≠ k) :
    intFind? (insertV m k v) x = intFind? m x := by
  simp [intFind?, find?_insertV, h]

/-- `diff_regs` skips leading banks that lack the register. -/
theorem diffStep_replicate_none (k : Nat) (rest : List (Option Value)) :
    diffStep none (List.replicate k none ++ rest) = diffStep none rest := by
  induction k with
  | zero => rfl
  | succ n ih => simpa [List.replicate_succ, diffStep] using ih

/-- After a reference value is fixed, a run of present banks is suppressed
iff all their values equal the reference. -/
theorem diffStep_some_map (v : Value) (tl : List Value) :
    diffStep (some v) (tl.map some) = .ok false ↔ ∀ w ∈ tl, w = v := by
  induction tl with
  | nil => simp [diffStep]
  | cons w rest ih =>
    by_cases hvw : v = w
    · subst hvw
      simpa [diffStep] using ih
    · simp only [List.map_cons, diffStep, if_neg hvw]
      constructor
      · intro h
        exact absurd h (by simp)
      · intro h
        exact absurd (h w (by simp)).symm hvw

/-! ### C2 -/

/-- C2: enumerated decoders must render an explicit invalid marker outside
their enumeration.  Every enumerated decoder except `format_gov_output`
does (sampled below at out-of-range codes); `format_gov_output` instead
falls off the end of its if/elif chain and returns Python `None`
(modelled `none`) for every value outside {0,1,2,3} — e.g. at raw values
4, 12 and -1 — contradicting the claim, which therefore pinpoints a code
bug in `format_gov_output`. -/
theorem gov_output_missing_marker :
    format_gov_output 4 = none ∧ format_gov_output 12 = none ∧
    format_gov_output (-1) = none ∧ format_gov_output 3 = some "none" ∧
    format_gov_type 3 = "<undef>" ∧ format_receiver_type 5 = "<invalid>" ∧
    format_servo_type 3 = "<invalid>" ∧ format_main_style 6 = "<invalid>" := by
  decide

/-! ### C7 -/

/-- C7: the scaling decoders compute exactly the documented affine
transforms with floor division: `format_cyclic_throw` renders
`59 + (raw-38)*61//39`, `format_yaw_rate` renders `40 + (raw-19)*81//39`,
and `format_main_adj` renders `120 - (raw+30)*80//70`, where in each case
the quotient `q` is characterized as the floor of the exact ratio by the
two-sided bound. -/
theorem scaling_decoders_floor (v : Int) :
    (∃ q : Int, format_cyclic_throw v = intRepr (59 + q) ∧
       39 * q ≤ (v - 38) * 61 ∧ (v - 38) * 61 < 39 * q + 39) ∧
    (∃ q : Int, format_yaw_rate v = intRepr (40 + q) ∧
       39 * q ≤ (v - 19) * 81 ∧ (v - 19) * 81 < 39 * q + 39) ∧
    (∃ q : Int, format_main_adj v = intRepr (120 - q) ∧
       70 * q ≤ (v + 30) * 80 ∧ (v + 30) * 80 < 70 * q + 70) := by
  refine ⟨⟨pyDiv ((v - 38) * 61) 39, rfl, ?_, ?_⟩,
          ⟨pyDiv ((v - 19) * 81) 39, rfl, ?_, ?_⟩,
          ⟨pyDiv ((v + 30) * 80) 70, rfl, ?_, ?_⟩⟩
  · rw [pyDiv_eq_ediv ((v - 38) * 61) 39 (by norm_num)]; omega
  · rw [pyDiv_eq_ediv ((v - 38) * 61) 39 (by norm_num)]; omega
  · rw [pyDiv_eq_ediv ((v - 19) * 81) 39 (by norm_num)]; omega
  · rw [pyDiv_eq_ediv ((v - 19) * 81) 39 (by norm_num)]; omega
  · rw [pyDiv_eq_ediv ((v + 30) * 80) 70 (by norm_num)]; omega
  · rw [pyDiv_eq_ediv ((v + 30) * 80) 70 (by norm_num)]; omega

/-! ### C8 -/

/-- C8: `format_servo_rate` is total: for positive raw values it renders
`1000 // val` (floor division, characterized by the two-sided bound on the
quotient) with an `Hz` suffix, and for every value at or below zero —
including zero — it renders `<invalid>` rather than failing. -/
theorem servo_rate_total (v : Int) :
    (0 < v → format_servo_rate v = intRepr (pyDiv 1000 v) ++ "Hz" ∧
       ∃ q : Int, format_servo_rate v = intRepr q ++ "Hz" ∧
         v * q ≤ 1000 ∧ 1000 < v * q + v) ∧
    (v ≤ 0 → format_servo_rate v = "<invalid>") := by
  constructor
  · intro hv
    have hform : format_servo_rate v = intRepr (pyDiv 1000 v) ++ "Hz" := by
      simp [format_servo_rate, hv]
    refine ⟨hform, pyDiv 1000 v, hform, ?_, ?_⟩ <;>
      rw [pyDiv_eq_ediv 1000 v (le_of_lt hv)]
    · have h1 := Int.ediv_add_emod 1000 v
      have h2 := Int.emod_nonneg 1000 (ne_of_gt hv)
      nlinarith [h1, h2]
    · have h1 := Int.ediv_add_emod 1000 v
      have h3 := Int.emod_lt_of_pos 1000 hv
      nlinarith [h1, h3]
  · intro hv
    simp [format_servo_rate, not_lt.mpr hv]

/-- Witness for C8 at raw values 50 and 0. -/
theorem servo_rate_total_witness :
    format_servo_rate 50 = "20Hz" ∧ format_servo_rate 0 = "<invalid>" :=
  ⟨((servo_rate_total 50).1 (by norm_num)).1.trans (by decide),
   (servo_rate_total 0).2 le_rfl⟩

/-! ### C9 -/

/-- C9: `format_gov_channel` maps -1 to `internal`, any value in [0, 12)
to the 1-based `ch` label, and every other integer to `<unknown>`. -/
theorem gov_channel_cases (v : Int) :
    (v = -1 → format_gov_channel v = "internal") ∧
    (0 ≤ v → v < 12 → format_gov_channel v = "ch" ++ intRepr (v + 1)) ∧
    (v < -1 ∨ 12 ≤ v → format_gov_channel v = "<unknown>") := by
  refine ⟨fun h => by simp [format_gov_channel, h], fun h1 h2 => ?_, fun h => ?_⟩
  · rw [format_gov_channel, if_neg (by omega), if_pos (by omega)]
  · rw [format_gov_channel, if_neg (by omega), if_neg (by omega)]

/-- Witness for C9 at raw values -1, 11 and 12. -/
theorem gov_channel_cases_witness :
    format_gov_channel (-1) = "internal" ∧ format_gov_channel 11 = "ch12" ∧
    format_gov_channel 12 = "<unknown>" :=
  ⟨(gov_channel_cases (-1)).1 rfl,
   ((gov_channel_cases 11).2.1 (by norm_num) (by norm_num)).trans (by decide),
   (gov_channel_cases 12).2.2 (Or.inr (by norm_num))⟩

/-! ### C10 -/

/-- C10: for a register absent from every loaded bank, the diff loop
completes silently: no row is printed and no error is raised. -/
theorem diff_all_absent_silent (banks : List (Option Value))
    (h : ∀ b ∈ banks, b = none) : diffReg banks = .ok false := by
  rw [diffReg]
  induction banks with
  | nil => rfl
  | cons b rest ih =>
    rw [h b (by simp)]
    exact ih (fun x hx => h x (by simp [hx]))

/-- Witness for C10 on two absent banks. -/
theorem diff_all_absent_silent_witness : diffReg [none, none] = .ok false :=
  diff_all_absent_silent [none, none] (by simp)

/-! ### C1 -/

/-- C1 counterexample: a register present (with value 5) in the first bank
and absent from the second.  At least one bank contains the register and
its value is identical across every bank that contains it, so the claim
asserts the row is suppressed and Diff completes without error; the code
instead raises `KeyError` when comparing against the absent entry. -/
theorem diff_absent_after_present_raises :
    diffReg [some (Value.int 5), none] = .error () := rfl

/-- C1 amended: when every bank positioned after the first bank that
contains the register also contains it (the banks are a run of absent
banks followed by a run of present banks), Diff suppresses the register
iff its value is identical across every bank that contains it; if instead
a later bank lacks a register present in an earlier bank and no differing
value occurs before that bank, Diff raises an error (see the
counterexample). -/
theorem diff_suppression (k : Nat) (v : Value) (tl : List Value)
    (banks : List (Option Value))
    (hb : banks = List.replicate k none ++ (v :: tl).map some) :
    (diffReg banks = .ok false ↔ ∀ w ∈ tl, w = v) := by
  subst hb
  rw [diffReg, diffStep_replicate_none, List.map_cons, diffStep]
  exact diffStep_some_map v tl

/-- Witness for C1 on banks [absent, 5, 5]: the row is suppressed. -/
theorem diff_suppression_witness :
    diffReg [none, some (Value.int 5), some (Value.int 5)] = .ok false :=
  (diff_suppression 1 (Value.int 5) [Value.int 5] _ rfl).mpr (by simp)

/-! ### C4 -/

/-- C4 counterexample: a bank holding only registers 109 and 499.
Derivation does fail (flag `true`), but the claim's assertion that the map
is left unchanged is false: the derived entry 1091 is inserted — without
2331 — before the failing lookup of register 233 surfaces. -/
theorem convert_partial_insert :
    convert_regs [(109, Value.int 18), (499, Value.int 3)] =
      ([(109, Value.int 18), (499, Value.int 3), (1091, Value.str "1.2.3")],
       true) := by
  decide

/-- C4 amended: derivation fails with an error whenever one of the
required raw registers 109, 499, 233, 235, 234 is missing, and the map is
left unchanged when 109 or 499 (read by the first derivation statement) is
missing; but when a later requirement is the missing one, the derived
entries assigned by the earlier statements persist in the map — e.g. the
bank holding only 109 and 499 ends up with 1091 inserted and no 2331. -/
theorem convert_missing_behavior :
    (∀ m : RegMap, intFind? m 109 = none → convert_regs m = (m, true)) ∧
    (∀ m : RegMap, intFind? m 499 = none → convert_regs m = (m, true)) ∧
    (∀ m : RegMap,
      intFind? m 233 = none ∨ intFind? m 235 = none ∨ intFind? m 234 = none →
      (convert_regs m).2 = true) ∧
    convert_regs [(109, Value.int 18), (499, Value.int 3)] =
      ([(109, Value.int 18), (499, Value.int 3), (1091, Value.str "1.2.3")],
       true) := by
  have eA : ∀ (mm : RegMap) (u : Value),
      intFind? (insertV mm 1091 u) 233 = intFind? mm 233 :=
    fun mm u => intFind?_insertV_ne mm 1091 233 u (by norm_num)
  have eB : ∀ (mm : RegMap) (u : Value),
      intFind? (insertV mm 1091 u) 235 = intFind? mm 235 :=
    fun mm u => intFind?_insertV_ne mm 1091 235 u (by norm_num)
  have eC : ∀ (mm : RegMap) (u : Value),
      intFind? (insertV mm 1091 u) 234 = intFind? mm 234 :=
    fun mm u => intFind?_insertV_ne mm 1091 234 u (by norm_num)
  have eD : ∀ (mm : RegMap) (u : Value),
      intFind? (insertV mm 2331 u) 234 = intFind? mm 234 :=
    fun mm u => intFind?_insertV_ne mm 2331 234 u (by norm_num)
  refine ⟨fun m h => by rw [convert_regs, h], fun m h => ?_, fun m h => ?_,
    by decide⟩
  · rw [convert_regs, h]
    cases intFind? m 109 <;> rfl
  · rw [convert_regs]
    cases h109 : intFind? m 109 with
    | none => rfl
    | some a =>
      cases h499 : intFind? m 499 with
      | none => rfl
      | some c =>
        simp only [eA, eB, eC, eD]
        rcases h with h | h | h
        · rw [h]
        · cases h233 : intFind? m 233 with
          | none => rfl
          | some t => rw [h]
        · cases h233 : intFind? m 233 with
          | none => rfl
          | some t =>
            cases h235 : intFind? m 235 with
            | none => rfl
            | some f => rw [h]

/-- Witness for C4's amended theorem: on the empty bank, derivation fails
with the map unchanged. -/
theorem convert_missing_behavior_witness : convert_regs [] = ([], true) :=
  convert_missing_behavior.1 [] rfl

/-! ### C6 -/

/-- The copy loop factors through an independent per-target pass. -/
theorem copy_regs_mem_eq_map (src : RegMap) (regs : List Int)
    (tgts : List RegMap) :
    copy_regs_mem src regs tgts = tgts.map (copyOne src regs) := by
  induction regs generalizing tgts with
  | nil =>
    rw [show copyOne src [] = fun t => t from funext fun t => rfl]
    simp [copy_regs_mem]
  | cons r rest ih =>
    have hstep : copy_regs_mem src (r :: rest) tgts =
        copy_regs_mem src rest
          (match find? src r with
           | some v => tgts.map (fun t => insertV t r v)
           | none => tgts) := rfl
    have hone : ∀ t : RegMap, copyOne src (r :: rest) t =
        copyOne src rest
          (match find? src r with
           | some v => insertV t r v
           | none => t) := fun t => rfl
    rw [hstep]
    cases hf : find? src r with
    | none =>
      rw [ih]
      exact List.map_congr_left fun t _ => by rw [hone, hf]
    | some v =>
      rw [ih, List.map_map]
      exact List.map_congr_left fun t _ => by
        simp only [Function.comp_apply]
        rw [hone, hf]

/-- Lookup in one target bank after the copy loop. -/
theorem find?_copyOne (src : RegMap) (regs : List Int) (t : RegMap) (k : Int) :
    find? (copyOne src regs t) k =
      if k ∈ regs ∧ (find? src k).isSome then find? src k
      else find? t k := by
  induction regs generalizing t with
  | nil => simp [copyOne]
  | cons r rest ih =>
    have hstep : copyOne src (r :: rest) t =
        copyOne src rest
          (match find? src r with
           | some v => insertV t r v
           | none => t) := rfl
    rw [hstep, ih]
    by_cases hmem : k ∈ rest ∧ (find? src k).isSome = true
    · rw [if_pos hmem, if_pos ⟨List.mem_cons_of_mem r hmem.1, hmem.2⟩]
    · rw [if_neg hmem]
      by_cases hkr : k = r
      · subst hkr
        cases hf : find? src k with
        | none => simp
        | some v => simp [find?_insertV]
      · have hcond : ¬(k ∈ r :: rest ∧ (find? src k).isSome = true) := by
          intro hc
          exact hmem ⟨(List.mem_cons.mp hc.1).resolve_left hkr, hc.2⟩
        cases hf : find? src r with
        | none => rw [if_neg hcond]
        | some v => rw [find?_insertV, if_neg hkr, if_neg hcond]

/-- C6: for every source bank, register group and list of target banks,
Copy pairs each target with its updated map, in which exactly the ids that
are both in the group and present in the source carry the source's value,
and every other id keeps its prior value. -/
theorem copy_overwrite_frame (src : RegMap) (regs : List Int)
    (tgts : List RegMap) :
    List.Forall₂
      (fun t r => ∀ k : Int,
        find? r k =
          if k ∈ regs ∧ (find? src k).isSome then find? src k
          else find? t k)
      tgts (copy_regs_mem src regs tgts) := by
  rw [copy_regs_mem_eq_map, List.forall₂_map_right_iff, List.forall₂_same]
  intro t _ k
  exact find?_copyOne src regs t k

/-! ### C3 -/

/-- C3 counterexample: copying the group [1091] (the derived full-version
register, a member of the basic group) from a source bank that contains it
— as every bank does after derivation — into an empty target bank writes
the derived entry 1091 into the target's in-memory map, which the claim
says never happens. -/
theorem copy_writes_derived :
    copy_regs_mem [(1091, Value.str "1.2.3")] [1091] [[]] =
      [[(1091, Value.str "1.2.3")]] := rfl

/-- C3 amended: file serialization does exclude derived registers — every
entry `write_vbr` emits has id < 1000 — but the Copy operation does not:
a derived-register id in the selected group that is present in the source
bank is written into every target bank's in-memory map (it still never
reaches a file, precisely because serialization drops ids ≥ 1000). -/
theorem write_excludes_derived :
    (∀ m : RegMap, ∀ p ∈ writeEntries m, p.1 < 1000) ∧
    copy_regs_mem [(1091, Value.str "1.2.3")] [1091] [[]] =
      [[(1091, Value.str "1.2.3")]] := by
  refine ⟨fun m p hp => ?_, rfl⟩
  rw [writeEntries, List.mem_filterMap] at hp
  obtain ⟨k, hk, he⟩ := hp
  rw [writeKeys, List.mem_filter] at hk
  cases hf : find? m k with
  | none => rw [hf] at he; cases he
  | some v =>
    rw [hf] at he
    cases he
    exact of_decide_eq_true hk.2

/-- Witness for C3's amended theorem on the concrete bank `bank0`. -/
theorem write_excludes_derived_witness :
    ((50 : Int), Value.int 77) ∈ writeEntries bank0 ∧ (50 : Int) < 1000 :=
  ⟨by decide, write_excludes_derived.1 bank0 (50, Value.int 77) (by decide)⟩

/-! ### C5 round-trip machinery: decimal digits, the line matcher, and
association-list lemmas -/

theorem digitVal_digitChar (d : Nat) (h : d < 10) :
    digitVal (digitChar d) = d := by
  interval_cases d <;> decide

theorem isDigit_digitChar (d : Nat) (h : d < 10) :
    (digitChar d).isDigit = true := by
  interval_cases d <;> decide

theorem digitsToNat_append_singleton (xs : List Char) (c : Char) :
    digitsToNat (xs ++ [c]) = 10 * digitsToNat xs + digitVal c := by
  rw [digitsToNat, List.foldl_append, List.foldl_cons, List.foldl_nil, digitsToNat]

theorem natCharsAux_spec (fuel : Nat) :
    ∀ n, n < fuel →
      (∀ c ∈ natCharsAux fuel n, c.isDigit = true) ∧
      natCharsAux fuel n ≠ [] ∧
      digitsToNat (natCharsAux fuel n) = n := by
  induction fuel with
  | zero => intro n hn; omega
  | succ fuel ih =>
    intro n hn
    by_cases h10 : n < 10
    · rw [natCharsAux, if_pos h10]
      refine ⟨fun c hc => ?_, by simp, ?_⟩
      · rw [List.mem_singleton] at hc
        rw [hc]
        exact isDigit_digitChar n h10
      · rw [show digitsToNat [digitChar n] = 10 * 0 + digitVal (digitChar n)
            from rfl, digitVal_digitChar n h10]
        omega
    · have hdiv : n / 10 < fuel := by omega
      obtain ⟨ihd, ihn, ihv⟩ := ih (n / 10) hdiv
      rw [natCharsAux, if_neg h10]
      refine ⟨fun c hc => ?_, by simp, ?_⟩
      · rw [List.mem_append, List.mem_singleton] at hc
        rcases hc with hc | hc
        · exact ihd c hc
        · rw [hc]
          exact isDigit_digitChar _ (Nat.mod_lt n (by norm_num))
      · rw [digitsToNat_append_singleton, ihv,
          digitVal_digitChar _ (Nat.mod_lt n (by norm_num))]
        omega

theorem natChars_digits (n : Nat) : ∀ c ∈ natChars n, c.isDigit = true :=
  (natCharsAux_spec (n + 1) n (by omega)).1

theorem natChars_ne_nil (n : Nat) : natChars n ≠ [] :=
  (natCharsAux_spec (n + 1) n (by omega)).2.1

theorem digitsToNat_natChars (n : Nat) : digitsToNat (natChars n) = n :=
  (natCharsAux_spec (n + 1) n (by omega)).2.2

theorem takeWhile_all_append (p : Char → Bool) (ds : List Char) (y : Char)
    (ys : List Char) (hds : ∀ c ∈ ds, p c = true) (hy : p y = false) :
    (ds ++ y :: ys).takeWhile p = ds := by
  induction ds with
  | nil => simp [List.takeWhile, hy]
  | cons d rest ih =>
    rw [List.cons_append, List.takeWhile_cons, hds d (by simp),
      ih fun c hc => hds c (by simp [hc])]
    rfl

theorem dropWhile_all_append (p : Char → Bool) (ds : List Char) (y : Char)
    (ys : List Char) (hds : ∀ c ∈ ds, p c = true) (hy : p y = false) :
    (ds ++ y :: ys).dropWhile p = y :: ys := by
  induction ds with
  | nil => simp [List.dropWhile, hy]
  | cons d rest ih =>
    rw [List.cons_append, List.dropWhile_cons_of_pos (by rw [hds d (by simp)]),
      ih fun c hc => hds c (by simp [hc])]

theorem matchNat_spec (a : Nat) (y : Char) (ys : List Char)
    (hy : y.isDigit = false) :
    matchNat (natChars a ++ y :: ys) = some (a, y :: ys) := by
  rw [matchNat]
  simp only [takeWhile_all_append Char.isDigit (natChars a) y ys
      (natChars_digits a) hy,
    dropWhile_all_append Char.isDigit (natChars a) y ys (natChars_digits a) hy,
    if_neg (natChars_ne_nil a), digitsToNat_natChars]

theorem isDigit_ne_minus (c : Char) (h : c.isDigit = true) : c ≠ '-' := by
  intro hc
  rw [hc] at h
  exact absurd h (by decide)

theorem matchInt_spec (r : Int) (y : Char) (ys : List Char)
    (hy : y.isDigit = false) :
    matchInt (intChars r ++ y :: ys) = some (r, y :: ys) := by
  by_cases hr : r < 0
  · rw [intChars, if_pos hr, List.cons_append, matchInt, if_pos rfl,
      matchNat_spec r.natAbs y ys hy]
    show some (-(r.natAbs : Int), y :: ys) = some (r, y :: ys)
    have : -(r.natAbs : Int) = r := by omega
    rw [this]
  · rw [intChars, if_neg hr]
    obtain ⟨c, cs, hcc⟩ := List.exists_cons_of_ne_nil (natChars_ne_nil r.natAbs)
    have hcdig : c.isDigit = true := natChars_digits r.natAbs c (by rw [hcc]; simp)
    rw [hcc, List.cons_append, matchInt, if_neg (isDigit_ne_minus c hcdig),
      ← List.cons_append, ← hcc, matchNat_spec r.natAbs y ys hy]
    show some ((r.natAbs : Int), y :: ys) = some (r, y :: ys)
    have : ((r.natAbs : Nat) : Int) = r := by omega
    rw [this]

theorem dropLit_append (p l : List Char) : dropLit p (p ++ l) = some l := by
  induction p with
  | nil => rfl
  | cons c cs ih => rw [List.cons_append, dropLit, if_pos rfl, ih]

theorem dropLit_self (p : List Char) : dropLit p p = some [] := by
  rw [show dropLit p p = dropLit p (p ++ []) by rw [List.append_nil],
    dropLit_append]

theorem matchVal_value (r v : Int) :
    matchVal ("<VALUE Register=\"".data ++ (intChars r ++
      ("\" Value=\"".data ++ (intChars v ++ "\"/>".data)))) = some (r, v) := by
  have e1 : ("\" Value=\"".data ++ (intChars v ++ "\"/>".data) : List Char) =
      '"' :: (" Value=\"".data ++ (intChars v ++ "\"/>".data)) := rfl
  have e2 : ('"' : Char).isDigit = false := rfl
  rw [matchVal, dropLit_append, Option.some_bind, e1,
    matchInt_spec r '"' _ e2, Option.some_bind, ← e1, dropLit_append,
    Option.some_bind]
  have e3 : (intChars v ++ "\"/>".data : List Char) =
      intChars v ++ ('"' :: "/>".data) := rfl
  rw [e3, matchInt_spec v '"' _ e2, Option.some_bind]
  have e4 : ('"' :: "/>".data : List Char) = "\"/>".data := rfl
  rw [e4, dropLit_self, Option.map_some']

theorem matchVal_cons_none (c : Char) (l : List Char) (h : c ≠ '<') :
    matchVal (c :: l) = none := by
  have e : ("<VALUE Register=\"".data : List Char) =
      '<' :: "VALUE Register=\"".data := rfl
  rw [matchVal, e, dropLit, if_neg (fun hh => h hh.symm), Option.none_bind]

theorem searchVal_cons_of_ne (c : Char) (l : List Char) (h : c ≠ '<') :
    searchVal (c :: l) = searchVal l := by
  rw [searchVal, matchVal_cons_none c l h]

theorem searchVal_value_line (r v : Int) :
    searchVal (valueLineCh r (.int v)) = some (r, v) := by
  have hsplit : ∀ X : List Char, "    <VALUE Register=\"".data ++ X =
      ' ' :: ' ' :: ' ' :: ' ' :: ("<VALUE Register=\"".data ++ X) := by
    intro X
    rw [show ("    <VALUE Register=\"".data : List Char) =
        [' ', ' ', ' ', ' '] ++ "<VALUE Register=\"".data from by decide,
      List.append_assoc]
    rfl
  have hcons : ∀ X : List Char, "<VALUE Register=\"".data ++ X =
      '<' :: ("VALUE Register=\"".data ++ X) := by
    intro X
    rw [show ("<VALUE Register=\"".data : List Char) =
        ['<'] ++ "VALUE Register=\"".data from by decide, List.append_assoc]
    rfl
  unfold valueLineCh
  rw [show valueChars (.int v) = intChars v from rfl]
  simp only [List.append_assoc]
  rw [hsplit,
    searchVal_cons_of_ne _ _ (by decide), searchVal_cons_of_ne _ _ (by decide),
    searchVal_cons_of_ne _ _ (by decide), searchVal_cons_of_ne _ _ (by decide),
    hcons, searchVal, ← hcons, matchVal_value r v]

theorem readLine_value_line (m : RegMap) (r v : Int) :
    readLine m (valueLineCh r (.int v)) = insertV m r (.int v) := by
  rw [readLine, searchVal_value_line]

theorem readLine_env_open (m : RegMap) : readLine m "<REGISTER>".data = m := by
  rw [readLine, show searchVal "<REGISTER>".data = none from by decide]

theorem readLine_env_close (m : RegMap) : readLine m "</REGISTER>".data = m := by
  rw [readLine, show searchVal "</REGISTER>".data = none from by decide]

theorem find?_eq_none_iff (m : RegMap) (k : Int) :
    find? m k = none ↔ k ∉ keys m := by
  induction m with
  | nil => simp [find?, keys]
  | cons p rest ih =>
    obtain ⟨a, w⟩ := p
    by_cases hka : k = a
    · simp [find?, keys, hka]
    · simp [find?, keys, hka, ih]

theorem find?_some_mem (m : RegMap) (k : Int) (v : Value)
    (h : find? m k = some v) : (k, v) ∈ m := by
  induction m with
  | nil => simp [find?] at h
  | cons p rest ih =>
    obtain ⟨a, w⟩ := p
    by_cases hka : k = a
    · subst hka
      rw [find?, if_pos rfl, Option.some.injEq] at h
      subst h
      exact List.mem_cons_self _ _
    · rw [find?, if_neg hka] at h
      exact List.mem_cons_of_mem _ (ih h)

theorem mem_find?_of_nodup (m : RegMap) (k : Int) (v : Value)
    (hnd : (keys m).Nodup) (h : (k, v) ∈ m) : find? m k = some v := by
  induction m with
  | nil => simp at h
  | cons p rest ih =>
    obtain ⟨a, w⟩ := p
    rw [keys, List.map_cons, List.nodup_cons] at hnd
    rcases List.mem_cons.mp h with h | h
    · cases h
      rw [find?, if_pos rfl]
    · have hk_mem : k ∈ List.map Prod.fst rest :=
        List.mem_map_of_mem Prod.fst h
      have hka : k ≠ a := fun hka => hnd.1 (hka ▸ hk_mem)
      rw [find?, if_neg hka]
      exact ih hnd.2 h

theorem find?_isSome_iff (m : RegMap) (k : Int) :
    (find? m k).isSome = true ↔ k ∈ keys m := by
  rw [← Decidable.not_iff_not, ← find?_eq_none_iff]
  cases find? m k <;> simp

theorem insSorted_perm (x : Int) (l : List Int) :
    (insSorted x l).Perm (x :: l) := by
  induction l with
  | nil => exact List.Perm.refl _
  | cons y ys ih =>
    rw [insSorted]
    by_cases h : x ≤ y
    · rw [if_pos h]
    · rw [if_neg h]
      exact (ih.cons y).trans (List.Perm.swap x y ys)

theorem sortInts_perm (l : List Int) : (sortInts l).Perm l := by
  induction l with
  | nil => exact List.Perm.refl _
  | cons x xs ih => exact (insSorted_perm x (sortInts xs)).trans (ih.cons x)

theorem mem_writeKeys (m : RegMap) (k : Int) :
    k ∈ writeKeys m ↔ k ∈ keys m ∧ k < 1000 := by
  rw [writeKeys, List.mem_filter, (sortInts_perm (keys m)).mem_iff]
  simp

theorem writeKeys_nodup (m : RegMap) (hnd : (keys m).Nodup) :
    (writeKeys m).Nodup :=
  ((sortInts_perm (keys m)).nodup_iff.mpr hnd).filter _

theorem writeEntries_spec (m : RegMap) (p : Int × Value)
    (hp : p ∈ writeEntries m) : p.1 < 1000 ∧ find? m p.1 = some p.2 := by
  rw [writeEntries, List.mem_filterMap] at hp
  obtain ⟨k, hk, he⟩ := hp
  cases hf : find? m k with
  | none => rw [hf] at he; cases he
  | some v =>
    rw [hf, Option.map_some', Option.some.injEq] at he
    subst he
    exact ⟨((mem_writeKeys m k).mp hk).2, hf⟩

theorem mem_writeEntries_iff (m : RegMap) (k : Int) (v : Value) :
    (k, v) ∈ writeEntries m ↔ k < 1000 ∧ find? m k = some v := by
  constructor
  · exact fun h => writeEntries_spec m (k, v) h
  · intro ⟨hk, hf⟩
    rw [writeEntries, List.mem_filterMap]
    exact ⟨k, (mem_writeKeys m k).mpr
      ⟨(find?_isSome_iff m k).mp (by simp [hf]), hk⟩, by rw [hf, Option.map_some']⟩

theorem keys_writeEntries (m : RegMap) :
    (writeEntries m).map Prod.fst = writeKeys m := by
  rw [writeEntries]
  have h : ∀ l : List Int, (∀ k ∈ l, k ∈ keys m) →
      (l.filterMap fun k => (find? m k).map fun v => (k, v)).map Prod.fst = l := by
    intro l
    induction l with
    | nil => simp
    | cons k ks ih =>
      intro hl
      have hks : (find? m k).isSome = true :=
        (find?_isSome_iff m k).mpr (hl k (by simp))
      cases hf : find? m k with
      | none => rw [hf] at hks; cases hks
      | some v =>
        rw [List.filterMap_cons, hf, Option.map_some', List.map_cons]
        rw [ih fun x hx => hl x (by simp [hx])]
  exact h (writeKeys m) fun k hk => ((mem_writeKeys m k).mp hk).1

theorem writeEntries_nodup_keys (m : RegMap) (hnd : (keys m).Nodup) :
    ((writeEntries m).map Prod.fst).Nodup := by
  rw [keys_writeEntries]
  exact writeKeys_nodup m hnd

theorem find?_foldl_insertV (es : List (Int × Value)) (m0 : RegMap) (k : Int)
    (hnd : (es.map Prod.fst).Nodup) :
    find? (es.foldl (fun mm p => insertV mm p.1 p.2) m0) k =
      match find? es k with
      | some v => some v
      | none => find? m0 k := by
  induction es generalizing m0 with
  | nil => simp [find?]
  | cons p rest ih =>
    obtain ⟨a, v⟩ := p
    rw [List.map_cons, List.nodup_cons] at hnd
    rw [List.foldl_cons]
    rw [ih (insertV m0 a v) hnd.2]
    by_cases hka : k = a
    · subst hka
      have h1 : find? rest k = none :=
        (find?_eq_none_iff rest k).mpr hnd.1
      rw [h1, find?, if_pos rfl, find?_insertV, if_pos rfl]
    · rw [find?, if_neg hka]
      cases hf : find? rest k with
      | some w => rfl
      | none => rw [find?_insertV, if_neg hka]

theorem foldl_readLine_entries (es : List (Int × Value)) (m0 : RegMap)
    (h : ∀ p ∈ es, p.2.isInt = true) :
    List.foldl readLine m0 (es.map fun p => valueLineCh p.1 p.2) =
      es.foldl (fun mm p => insertV mm p.1 p.2) m0 := by
  induction es generalizing m0 with
  | nil => rfl
  | cons p rest ih =>
    obtain ⟨a, v⟩ := p
    cases v with
    | int n =>
      rw [List.map_cons, List.foldl_cons, List.foldl_cons,
        readLine_value_line]
      exact ih (insertV m0 a (.int n)) fun q hq => h q (by simp [hq])
    | str s => exact absurd (h (a, .str s) (by simp)) (by simp [Value.isInt])
    | gearing t f =>
      exact absurd (h (a, .gearing t f) (by simp)) (by simp [Value.isInt])

theorem find?_read_fold (m : RegMap) (hnd : (keys m).Nodup)
    (hint : ∀ p ∈ m, p.1 < 1000 → p.2.isInt = true) (k : Int) :
    find? ((write_vbr m).foldl readLine []) k =
      if k < 1000 then find? m k else none := by
  have hints : ∀ p ∈ writeEntries m, p.2.isInt = true := by
    intro p hp
    obtain ⟨hlt, hfind⟩ := writeEntries_spec m p hp
    exact hint (p.1, p.2) (find?_some_mem m p.1 p.2 hfind) hlt
  rw [write_vbr]
  simp only [List.foldl_cons, List.foldl_append, List.foldl_nil]
  rw [readLine_env_open, readLine_env_close,
    foldl_readLine_entries (writeEntries m) [] hints,
    find?_foldl_insertV (writeEntries m) [] k (writeEntries_nodup_keys m hnd)]
  cases hf : find? (writeEntries m) k with
  | some v =>
    obtain ⟨hlt, hfind⟩ := writeEntries_spec m (k, v) (find?_some_mem _ _ _ hf)
    rw [if_pos hlt, hfind]
  | none =>
    have hknot : k ∉ keys (writeEntries m) := (find?_eq_none_iff _ _).mp hf
    rw [show keys (writeEntries m) = (writeEntries m).map Prod.fst from rfl,
      keys_writeEntries] at hknot
    by_cases hk : k < 1000
    · rw [if_pos hk]
      have hnm : k ∉ keys m :=
        fun hmem => hknot ((mem_writeKeys m k).mpr ⟨hmem, hk⟩)
      rw [(find?_eq_none_iff m k).mpr hnm]
      rfl
    · rw [if_neg hk]
      rfl

theorem convert_regs_ok (m : RegMap) (a c t f g : Int)
    (h1 : intFind? m 109 = some a) (h2 : intFind? m 499 = some c)
    (h3 : intFind? m 233 = some t) (h4 : intFind? m 235 = some f)
    (h5 : intFind? m 234 = some g) :
    convert_regs m =
      (insertV (insertV (insertV (insertV (insertV m
        1091 (.str (verString a c)))
        2331 (.gearing t f))
        2341 (.int (pyShr (pyAnd g 8) 3)))
        2342 (.int (pyShr (pyAnd g 32) 5)))
        2343 (.int (pyShr (pyAnd g 6) 1)), false) := by
  have eA : ∀ (mm : RegMap) (u : Value),
      intFind? (insertV mm 1091 u) 233 = intFind? mm 233 :=
    fun mm u => intFind?_insertV_ne mm 1091 233 u (by norm_num)
  have eB : ∀ (mm : RegMap) (u : Value),
      intFind? (insertV mm 1091 u) 235 = intFind? mm 235 :=
    fun mm u => intFind?_insertV_ne mm 1091 235 u (by norm_num)
  have eC : ∀ (mm : RegMap) (u : Value),
      intFind? (insertV mm 1091 u) 234 = intFind? mm 234 :=
    fun mm u => intFind?_insertV_ne mm 1091 234 u (by norm_num)
  have eD : ∀ (mm : RegMap) (u : Value),
      intFind? (insertV mm 2331 u) 234 = intFind? mm 234 :=
    fun mm u => intFind?_insertV_ne mm 2331 234 u (by norm_num)
  have eE : ∀ (mm : RegMap) (u : Value),
      intFind? (insertV mm 2341 u) 234 = intFind? mm 234 :=
    fun mm u => intFind?_insertV_ne mm 2341 234 u (by norm_num)
  have eF : ∀ (mm : RegMap) (u : Value),
      intFind? (insertV mm 2342 u) 234 = intFind? mm 234 :=
    fun mm u => intFind?_insertV_ne mm 2342 234 u (by norm_num)
  simp only [convert_regs, eA, eB, eC, eD, eE, eF, h1, h2, h3, h4, h5]

/-- C5: writing a bank with `write_vbr` and re-reading the emitted lines
with `read_vbr` succeeds (derivation raises no error) and yields a map
that agrees with the original on every raw id (< 1000); the derived
entries are recomputed from the serialized raw registers — 1091, 2331,
2341, 2342, 2343 carry exactly the values derivation computes from the
raw values of 109, 499, 233, 235, 234 — and no other id at or above 1000
is present.  Hypotheses: the bank's keys are distinct (Python dicts
guarantee this), raw entries hold integers (the parser guarantees this),
and the five registers required by derivation are present (the claim's
precondition). -/
theorem write_read_roundtrip (m : RegMap) (a c t f g : Int)
    (hnd : (keys m).Nodup)
    (hint : ∀ p ∈ m, p.1 < 1000 → p.2.isInt = true)
    (h1 : intFind? m 109 = some a) (h2 : intFind? m 499 = some c)
    (h3 : intFind? m 233 = some t) (h4 : intFind? m 235 = some f)
    (h5 : intFind? m 234 = some g) :
    (read_vbr (write_vbr m)).2 = false ∧
    (∀ k : Int, k < 1000 → find? (read_vbr (write_vbr m)).1 k = find? m k) ∧
    find? (read_vbr (write_vbr m)).1 1091 = some (.str (verString a c)) ∧
    find? (read_vbr (write_vbr m)).1 2331 = some (.gearing t f) ∧
    find? (read_vbr (write_vbr m)).1 2341 =
      some (.int (pyShr (pyAnd g 8) 3)) ∧
    find? (read_vbr (write_vbr m)).1 2342 =
      some (.int (pyShr (pyAnd g 32) 5)) ∧
    find? (read_vbr (write_vbr m)).1 2343 =
      some (.int (pyShr (pyAnd g 6) 1)) ∧
    (∀ k : Int, 1000 ≤ k → k ≠ 1091 → k ≠ 2331 → k ≠ 2341 → k ≠ 2342 →
      k ≠ 2343 → find? (read_vbr (write_vbr m)).1 k = none) := by
  have hfind : ∀ k : Int,
      find? ((write_vbr m).foldl readLine []) k =
        if k < 1000 then find? m k else none :=
    fun k => find?_read_fold m hnd hint k
  have hi : ∀ (k x : Int), k < 1000 → intFind? m k = some x →
      intFind? ((write_vbr m).foldl readLine []) k = some x := by
    intro k x hk hx
    rw [intFind?, hfind k, if_pos hk]
    exact hx
  have hread : read_vbr (write_vbr m) =
      convert_regs ((write_vbr m).foldl readLine []) := rfl
  rw [hread, convert_regs_ok _ a c t f g (hi 109 a (by norm_num) h1)
    (hi 499 c (by norm_num) h2) (hi 233 t (by norm_num) h3)
    (hi 235 f (by norm_num) h4) (hi 234 g (by norm_num) h5)]
  refine ⟨rfl, ?_, ?_, ?_, ?_, ?_, ?_, ?_⟩
  · intro k hk
    simp only [find?_insertV]
    rw [if_neg (by omega), if_neg (by omega), if_neg (by omega),
      if_neg (by omega), if_neg (by omega), hfind k, if_pos hk]
  · simp [find?_insertV]
  · simp [find?_insertV]
  · simp [find?_insertV]
  · simp [find?_insertV]
  · simp [find?_insertV]
  · intro k hk hk1 hk2 hk3 hk4 hk5
    simp only [find?_insertV]
    rw [if_neg hk5, if_neg hk4, if_neg hk3, if_neg hk2, if_neg hk1,
      hfind k, if_neg (by omega)]

/-- Witness for C5 on the concrete bank `bank0`. -/
theorem write_read_roundtrip_witness :
    (read_vbr (write_vbr bank0)).2 = false ∧
    find? (read_vbr (write_vbr bank0)).1 50 = find? bank0 50 ∧
    find? (read_vbr (write_vbr bank0)).1 1091 =
      some (Value.str (verString 18 3)) := by
  have h := write_read_roundtrip bank0 18 3 18 500 10 (by decide) (by decide)
    rfl rfl rfl rfl rfl
  exact ⟨h.1, h.2.1 50 (by norm_num), h.2.2.1⟩
